import Mathlib

/-!
eBPF-Research: the XDP sample filters.

A shallow embedding of `samples/xdp_port_punch.c` and a verification of its
verdicts.  The packet is a finite byte sequence placed at some address
`base`; the program receives a context holding the addresses `data` and
`data_end`, and reads the packet through loads that may fail.  Every load is
recorded in a log, so that the bounds discipline of the program can be stated
and proved, not assumed.

Addresses are natural numbers: the packet region handed over by the kernel
never sits at the top of the address space, so pointer sums do not wrap.
-/

namespace XdpSamples

/-! ## Data model -/

/-- One octet of packet data. -/
abbrev u8 := Fin 256

/-- Modelled from the spec: the closed verdict vocabulary (`Pass`, `Drop`,
`Redirect`, `Transmit`, `Abort`); the C enumeration `xdp_action` itself is
declared in `linux/bpf.h`, outside the repository. -/
inductive xdp_action where
  | XDP_ABORTED
  | XDP_DROP
  | XDP_PASS
  | XDP_TX
  | XDP_REDIRECT
  deriving DecidableEq, Repr

open xdp_action

/-- Byte order of the machine that runs the filter. -/
inductive Endian where
  | little
  | big
  deriving DecidableEq, Repr

/-- The two fields of `struct xdp_md` the program uses: the address of the
first packet byte and the address one past the last. -/
structure xdp_md where
  data : Nat
  data_end : Nat
  deriving DecidableEq, Repr

/-- Packet memory as the program sees it: the bytes `pkt` live at addresses
`base, base + 1, ...`; `reads` logs every address loaded so far, most recent
first. -/
structure Machine where
  base : Nat
  pkt : List u8
  reads : List Nat
  deriving DecidableEq, Repr

/-- The context the host builds for the packet held by a machine. -/
def Machine.ctx (m : Machine) : xdp_md :=
  { data := m.base, data_end := m.base + m.pkt.length }

/-! ## Layout constants of the kernel headers -/

/-- Modelled from the spec: size of the fixed Link Header, `sizeof(struct ethhdr)`
of `linux/if_ether.h` (6 + 6 + 2 bytes). -/
def sizeof_ethhdr : Nat := 14

/-- Modelled from the spec: size of the fixed Network Header,
`sizeof(struct iphdr)` of `linux/ip.h`. -/
def sizeof_iphdr : Nat := 20

/-- Modelled from the spec: size of the fixed Transport Header,
`sizeof(struct tcphdr)` of `linux/tcp.h`. -/
def sizeof_tcphdr : Nat := 20

/-- Modelled from the spec: offset of the upper-layer protocol identifier,
the field `protocol` of `struct iphdr`. -/
def offsetof_iphdr_protocol : Nat := 9

/-- Modelled from the spec: offset of the destination-port field, the field
`dest` of `struct tcphdr`. -/
def offsetof_tcphdr_dest : Nat := 2

/-- Modelled from the spec: protocol identifier of the connection-oriented
transport protocol, `IPPROTO_TCP`. -/
def IPPROTO_TCP : Nat := 6

/-! ## Loads -/

/-- Load one byte.  The result is `none` when the address lies outside the
packet; the address is logged either way. -/
def Machine.load_u8 (m : Machine) (addr : Nat) : Option u8 × Machine :=
  (if m.base ≤ addr then m.pkt[addr - m.base]? else none,
   { m with reads := addr :: m.reads })

/-- Load a 16-bit field in the byte order of the host: two byte loads at
`addr` and `addr + 1`, combined least-significant-first on a little-endian
machine and most-significant-first on a big-endian one. -/
def Machine.load_u16 (host : Endian) (m : Machine) (addr : Nat) : Option Nat × Machine :=
  match m.load_u8 addr with
  | (none, m1) => (none, m1)
  | (some b0, m1) =>
    match m1.load_u8 (addr + 1) with
    | (none, m2) => (none, m2)
    | (some b1, m2) =>
      (some (match host with
             | Endian.little => b0.val + 256 * b1.val
             | Endian.big => 256 * b0.val + b1.val), m2)

/-- Modelled from the spec: `htons` of `arpa/inet.h`, the conversion between
host and network byte order of a 16-bit value: a byte swap on a little-endian
host, the identity on a big-endian one. -/
def htons (host : Endian) (x : Nat) : Nat :=
  match host with
  | Endian.little => ((x % 256) * 256 + (x / 256) % 256) % 65536
  | Endian.big => x % 65536

/-! ## The programs -/

/-- The filter `xdp_port_punch` of `samples/xdp_port_punch.c`.  The first
component of the result is the returned action, or `none` if a load left the
packet; the second is the machine after the run.  The source declares
`eth = data` only to take `sizeof(*eth)`; its single trailing
`return XDP_PASS` is the `else` branch of each guard here. -/
def xdp_port_punch (host : Endian) (ctx : xdp_md) (m : Machine) :
    Option xdp_action × Machine :=
  let data := ctx.data
  let data_end := ctx.data_end
  let ip := data + sizeof_ethhdr
  if ip + sizeof_iphdr ≤ data_end then
    match m.load_u8 (ip + offsetof_iphdr_protocol) with
    | (none, m1) => (none, m1)
    | (some protocol, m1) =>
      if protocol.val = IPPROTO_TCP then
        let tcp := ip + sizeof_iphdr
        if tcp + sizeof_tcphdr ≤ data_end then
          match m1.load_u16 host (tcp + offsetof_tcphdr_dest) with
          | (none, m2) => (none, m2)
          | (some dest, m2) =>
            if htons host dest ≠ 22 then (some XDP_DROP, m2)
            else (some XDP_PASS, m2)
        else (some XDP_PASS, m1)
      else (some XDP_PASS, m1)
  else (some XDP_PASS, m)

/-- The filter `pass_filter` of `samples/xdp_pass.c`: it returns `XDP_PASS`
without touching the context or the packet. -/
def pass_filter (_ctx : xdp_md) (m : Machine) : Option xdp_action × Machine :=
  (some XDP_PASS, m)

/-- One invocation by the host: the packet `pkt` is placed at `base`, the
context describes exactly that region, and the load log starts empty. -/
def run (host : Endian) (base : Nat) (pkt : List u8) : Option xdp_action × Machine :=
  let m : Machine := { base := base, pkt := pkt, reads := [] }
  xdp_port_punch host m.ctx m

/-! ## Vocabulary of the statements -/

/-- The 16-bit value stored big-endian at offsets `off`, `off + 1` of a
buffer (absent bytes count as zero). -/
def be16_at (pkt : List u8) (off : Nat) : Nat :=
  256 * (pkt.getD off 0).val + (pkt.getD (off + 1) 0).val

/-- Closed form of the verdict, as a function of the buffer alone: `Drop`
exactly for a buffer of at least 54 bytes whose byte 23 is 6 and whose
big-endian value at 36..37 is not 22. -/
def verdict_of (pkt : List u8) : xdp_action :=
  if 54 ≤ pkt.length ∧ pkt[23]? = some 6 ∧ be16_at pkt 36 ≠ 22 then XDP_DROP else XDP_PASS

/-- Closed form of the offsets loaded by one run, most recent first. -/
def offsets_read (pkt : List u8) : List Nat :=
  if pkt.length < 34 then []
  else if 54 ≤ pkt.length ∧ pkt[23]? = some 6 then [37, 36, 23]
  else [23]

/-- A 54-byte Ethernet + IPv4 + TCP-shaped frame: EtherType `et_hi et_lo` at
offsets 12..13, protocol byte `proto` at offset 23, destination port bytes
`p_hi p_lo` at offsets 36..37, zero elsewhere. -/
def frame (et_hi et_lo proto p_hi p_lo : u8) : List u8 :=
  List.replicate 12 0 ++ [et_hi, et_lo] ++ List.replicate 9 0 ++ [proto]
    ++ List.replicate 12 0 ++ [p_hi, p_lo] ++ List.replicate 16 0

/-! ## The layer-by-layer reference walk -/

/-- The Header Cursor of the design: a byte offset into a packet buffer. -/
structure Cursor where
  buf : List u8
  offset : Nat
  deriving DecidableEq, Repr

/-- Reference definition, in the words of the design: reading a header of
`h` bytes succeeds only if `offset + h <= length`; it then yields a view of
exactly those `h` bytes and the cursor advanced by `h`.  Otherwise the header
is unavailable. -/
def try_read_header (c : Cursor) (h : Nat) : Option (List u8 × Cursor) :=
  if c.offset + h ≤ c.buf.length then
    some ((c.buf.drop c.offset).take h, { c with offset := c.offset + h })
  else none

/-- Reference definition, in the words of the design: the walk link header
(14 bytes), network header (20 bytes), transport header (20 bytes), each read
through `try_read_header`; the first unavailable header gives Pass, a network
header whose protocol field (byte 9 of the view) is not 6 gives Pass, and on
the transport header the destination port (bytes 2..3 of the view, big-endian)
gives Pass when it is 22 and Drop otherwise. -/
def reference_walk (pkt : List u8) : xdp_action :=
  match try_read_header { buf := pkt, offset := 0 } sizeof_ethhdr with
  | none => XDP_PASS
  | some (_link, c1) =>
    match try_read_header c1 sizeof_iphdr with
    | none => XDP_PASS
    | some (net, c2) =>
      if net[offsetof_iphdr_protocol]? = some 6 then
        match try_read_header c2 sizeof_tcphdr with
        | none => XDP_PASS
        | some (tp, _) =>
          if be16_at tp offsetof_tcphdr_dest = 22 then XDP_PASS else XDP_DROP
      else XDP_PASS

/-! ## Basic facts about loads -/

theorem htons_load (host : Endian) (b0 b1 : u8) :
    htons host (match host with
                | Endian.little => b0.val + 256 * b1.val
                | Endian.big => 256 * b0.val + b1.val) = 256 * b0.val + b1.val := by
  have h0 := b0.isLt
  have h1 := b1.isLt
  cases host
  · have hm : (b0.val + 256 * b1.val) % 256 = b0.val := by omega
    have hd : (b0.val + 256 * b1.val) / 256 = b1.val := by omega
    simp only [htons, hm, hd]
    omega
  · simp only [htons]
    omega

theorem load_u8_in (m : Machine) (off : Nat) (h : off < m.pkt.length) :
    m.load_u8 (m.base + off) =
      (some (m.pkt.get ⟨off, h⟩), { m with reads := (m.base + off) :: m.reads }) := by
  simp [Machine.load_u8, List.getElem?_eq_getElem h]

theorem be16_at_eq (pkt : List u8) (off : Nat) (h : off + 1 < pkt.length) :
    be16_at pkt off =
      256 * (pkt.get ⟨off, by omega⟩).val + (pkt.get ⟨off + 1, h⟩).val := by
  have h0 : off < pkt.length := by omega
  simp [be16_at, List.getD_eq_getElem?_getD, List.getElem?_eq_getElem h, List.getElem?_eq_getElem h0]

theorem load_u16_in (host : Endian) (m : Machine) (off : Nat) (h : off + 1 < m.pkt.length) :
    m.load_u16 host (m.base + off) =
      (some (match host with
             | Endian.little =>
               (m.pkt.get ⟨off, by omega⟩).val + 256 * (m.pkt.get ⟨off + 1, h⟩).val
             | Endian.big =>
               256 * (m.pkt.get ⟨off, by omega⟩).val + (m.pkt.get ⟨off + 1, h⟩).val),
       { m with reads := (m.base + off + 1) :: (m.base + off) :: m.reads }) := by
  have h0 : off < m.pkt.length := by omega
  have e1 := load_u8_in m off h0
  have e2 := load_u8_in { m with reads := (m.base + off) :: m.reads } (off + 1) h
  simp only [Machine.load_u16, e1]
  rw [show m.base + off + 1 = m.base + (off + 1) from by omega]
  simp only [e2]

/-- One run in closed form: the action is `verdict_of` of the buffer, no load
fails, the packet is untouched and the log grows by `offsets_read`. -/
theorem xdp_port_punch_eq (host : Endian) (m : Machine) :
    xdp_port_punch host m.ctx m =
      (some (verdict_of m.pkt),
       { m with reads := (offsets_read m.pkt).map (fun off => m.base + off) ++ m.reads }) := by
  by_cases h34 : 34 ≤ m.pkt.length
  · have h23 : 23 < m.pkt.length := by omega
    have e1 := load_u8_in m 23 h23
    have g23 : m.pkt[23]? = some (m.pkt.get ⟨23, h23⟩) := List.getElem?_eq_getElem h23
    by_cases hp : (m.pkt.get ⟨23, h23⟩).val = 6
    · have hp6 : m.pkt.get ⟨23, h23⟩ = (6 : u8) := Fin.ext hp
      have hp6g : m.pkt[23]? = some (6 : u8) := by rw [g23, hp6]
      by_cases h54 : 54 ≤ m.pkt.length
      · have h37 : 36 + 1 < m.pkt.length := by omega
        have e2 := load_u16_in host { m with reads := (m.base + 23) :: m.reads } 36 h37
        have hb := be16_at_eq m.pkt 36 h37
        have hl := htons_load host (m.pkt.get ⟨36, by omega⟩) (m.pkt.get ⟨36 + 1, h37⟩)
        have hv : verdict_of m.pkt =
            if 256 * (m.pkt.get ⟨36, by omega⟩).val + (m.pkt.get ⟨36 + 1, h37⟩).val ≠ 22
            then XDP_DROP else XDP_PASS := by
          simp only [verdict_of, hb, g23, hp6, h54, true_and]
        have ho : offsets_read m.pkt = [37, 36, 23] := by
          simp only [offsets_read, hp6g, h54, Nat.not_lt.mpr h34, and_self, if_true, if_false]
        simp only [xdp_port_punch, Machine.ctx, sizeof_ethhdr, sizeof_iphdr, sizeof_tcphdr,
          offsetof_iphdr_protocol, offsetof_tcphdr_dest, IPPROTO_TCP]
        rw [if_pos (by omega), show m.base + 14 + 9 = m.base + 23 from by omega]
        simp only [e1]
        rw [if_pos hp, if_pos (by omega), show m.base + 14 + 20 + 2 = m.base + 36 from by omega]
        simp only [e2, hl, hv, ho]
        split <;> simp [Nat.add_assoc]
      · have hv : verdict_of m.pkt = XDP_PASS := by
          simp [verdict_of, h54]
        have ho : offsets_read m.pkt = [23] := by
          simp [offsets_read, h54, Nat.not_lt.mpr h34]
        simp only [xdp_port_punch, Machine.ctx, sizeof_ethhdr, sizeof_iphdr, sizeof_tcphdr,
          offsetof_iphdr_protocol, offsetof_tcphdr_dest, IPPROTO_TCP]
        rw [if_pos (by omega), show m.base + 14 + 9 = m.base + 23 from by omega]
        simp only [e1]
        rw [if_pos hp, if_neg (by omega)]
        simp [hv, ho]
    · have hne : m.pkt.get ⟨23, h23⟩ ≠ (6 : u8) := fun h => hp (by rw [h]; rfl)
      have hneg : ¬ m.pkt[23]? = some (6 : u8) := by
        rw [g23]
        exact fun h => hne (Option.some.inj h)
      have hv : verdict_of m.pkt = XDP_PASS := by
        simp only [verdict_of, hneg, false_and, and_false, if_false]
      have ho : offsets_read m.pkt = [23] := by
        simp only [offsets_read, hneg, Nat.not_lt.mpr h34, and_false, if_false]
      simp only [xdp_port_punch, Machine.ctx, sizeof_ethhdr, sizeof_iphdr, sizeof_tcphdr,
        offsetof_iphdr_protocol, offsetof_tcphdr_dest, IPPROTO_TCP]
      rw [if_pos (by omega), show m.base + 14 + 9 = m.base + 23 from by omega]
      simp only [e1]
      rw [if_neg hp]
      simp [hv, ho]
  · have hv : verdict_of m.pkt = XDP_PASS := by
      have : ¬ 54 ≤ m.pkt.length := by omega
      simp [verdict_of, this]
    have ho : offsets_read m.pkt = [] := by
      simp [offsets_read, Nat.lt_of_not_le h34]
    simp only [xdp_port_punch, Machine.ctx, sizeof_ethhdr, sizeof_iphdr]
    rw [if_neg (by omega)]
    simp [hv, ho]

theorem run_eq (host : Endian) (base : Nat) (pkt : List u8) :
    run host base pkt =
      (some (verdict_of pkt),
       { base := base, pkt := pkt, reads := (offsets_read pkt).map (fun off => base + off) }) := by
  have h := xdp_port_punch_eq host { base := base, pkt := pkt, reads := [] }
  simpa [run] using h

theorem be16_at_of_bytes (pkt : List u8) (off : Nat) (hi lo : u8)
    (h0 : pkt[off]? = some hi) (h1 : pkt[off + 1]? = some lo) :
    be16_at pkt off = 256 * hi.val + lo.val := by
  simp [be16_at, List.getD_eq_getElem?_getD, h0, h1]

theorem verdict_of_set (pkt : List u8) (off : Nat) (v : u8)
    (h23 : off ≠ 23) (h36 : off ≠ 36) (h37 : off ≠ 37) :
    verdict_of (pkt.set off v) = verdict_of pkt := by
  simp [verdict_of, be16_at, List.getD_eq_getElem?_getD, List.getElem?_set_ne h23,
    List.getElem?_set_ne h36, List.getElem?_set_ne h37]

theorem offsets_read_set (pkt : List u8) (off : Nat) (v : u8) (h23 : off ≠ 23) :
    offsets_read (pkt.set off v) = offsets_read pkt := by
  simp [offsets_read, List.getElem?_set_ne h23]

theorem offsets_read_sub (pkt : List u8) : ∀ off ∈ offsets_read pkt,
    off < pkt.length ∧ (off = 23 ∨ off = 36 ∨ off = 37) ∧
      (off = 23 → 34 ≤ pkt.length) ∧ (off = 36 ∨ off = 37 → 54 ≤ pkt.length) := by
  intro off hmem
  unfold offsets_read at hmem
  split at hmem
  · simp at hmem
  · split at hmem
    · simp at hmem
      omega
    · simp at hmem
      omega

theorem verdict_of_drop_iff (pkt : List u8) :
    verdict_of pkt = XDP_DROP ↔
      54 ≤ pkt.length ∧ pkt[23]? = some 6 ∧ be16_at pkt 36 ≠ 22 := by
  unfold verdict_of
  split
  · next hc => exact ⟨fun _ => hc, fun _ => rfl⟩
  · next hc => exact ⟨fun h => (by cases h), fun h => absurd h hc⟩

theorem verdict_of_pass_iff (pkt : List u8) :
    verdict_of pkt = XDP_PASS ↔
      ¬ (54 ≤ pkt.length ∧ pkt[23]? = some 6 ∧ be16_at pkt 36 ≠ 22) := by
  unfold verdict_of
  split
  · next hc => exact ⟨fun h => (by cases h), fun h => absurd hc h⟩
  · next hc => exact ⟨fun _ => hc, fun _ => rfl⟩

/-! ## The port rule -/

/-- C1: on a buffer of at least 54 bytes whose IP protocol byte (offset 23) is
6 (TCP), `xdp_port_punch` returns Pass when the destination port, decoded
big-endian from bytes 36..37, is 22, and Drop for every other port value. -/
theorem C1_tcp_port_rule (host : Endian) (base : Nat) (pkt : List u8)
    (hlen : 54 ≤ pkt.length) (hproto : pkt[23]? = some 6) :
    (be16_at pkt 36 = 22 → (run host base pkt).1 = some XDP_PASS) ∧
    (be16_at pkt 36 ≠ 22 → (run host base pkt).1 = some XDP_DROP) := by
  rw [run_eq]
  constructor
  · intro hp
    simp [verdict_of, hp]
  · intro hp
    simp [verdict_of, hlen, hproto, hp]

/-- Witness of C1: the 54-byte TCP frame with port 22 passes and the one with
port 80 is dropped. -/
theorem C1_tcp_port_rule_witness :
    (54 ≤ (frame 8 0 6 0 22).length ∧ (frame 8 0 6 0 22)[23]? = some 6 ∧
      be16_at (frame 8 0 6 0 22) 36 = 22 ∧
      (run Endian.little 4096 (frame 8 0 6 0 22)).1 = some XDP_PASS) ∧
    (54 ≤ (frame 8 0 6 0 80).length ∧ (frame 8 0 6 0 80)[23]? = some 6 ∧
      be16_at (frame 8 0 6 0 80) 36 ≠ 22 ∧
      (run Endian.little 4096 (frame 8 0 6 0 80)).1 = some XDP_DROP) :=
  ⟨⟨by decide, by decide, by decide,
    (C1_tcp_port_rule Endian.little 4096 (frame 8 0 6 0 22) (by decide) (by decide)).1
      (by decide)⟩,
   ⟨by decide, by decide, by decide,
    (C1_tcp_port_rule Endian.little 4096 (frame 8 0 6 0 80) (by decide) (by decide)).2
      (by decide)⟩⟩

/-- C2: on every buffer shorter than one Link Header (fewer than 14 bytes,
the empty buffer included) `xdp_port_punch` returns the default verdict Pass,
whatever the contents, and loads nothing. -/
theorem C2_short_buffer_pass (host : Endian) (base : Nat) (pkt : List u8)
    (hlen : pkt.length < 14) :
    (run host base pkt).1 = some XDP_PASS ∧ (run host base pkt).2.reads = [] := by
  have h54 : ¬ 54 ≤ pkt.length := by omega
  have h34 : pkt.length < 34 := by omega
  rw [run_eq]
  simp [verdict_of, offsets_read, h54, h34]

/-- Witness of C2: the empty buffer and a 13-byte buffer. -/
theorem C2_short_buffer_pass_witness :
    (([] : List u8).length < 14 ∧ (run Endian.big 0 []).1 = some XDP_PASS) ∧
    ((List.replicate 13 (6 : u8)).length < 14 ∧
      (run Endian.little 7 (List.replicate 13 6)).1 = some XDP_PASS) :=
  ⟨⟨by decide, (C2_short_buffer_pass Endian.big 0 [] (by decide)).1⟩,
   ⟨by decide, (C2_short_buffer_pass Endian.little 7 (List.replicate 13 6) (by decide)).1⟩⟩

/-- C3: on every buffer that holds the Link and Network headers but not the
whole Transport Header (34 <= length < 54) `xdp_port_punch` returns the
default verdict Pass, also when the protocol byte says TCP and whatever sits
at the port position. -/
theorem C3_missing_transport_pass (host : Endian) (base : Nat) (pkt : List u8)
    (hlo : 34 ≤ pkt.length) (hhi : pkt.length < 54) :
    (run host base pkt).1 = some XDP_PASS := by
  have h54 : ¬ 54 ≤ pkt.length := by omega
  rw [run_eq]
  simp [verdict_of, h54]

/-- Witness of C3: the TCP frame with port 80 cut to 53 bytes, and to 34. -/
theorem C3_missing_transport_pass_witness :
    (34 ≤ ((frame 8 0 6 0 80).take 53).length ∧ ((frame 8 0 6 0 80).take 53).length < 54 ∧
      ((frame 8 0 6 0 80).take 53)[23]? = some 6 ∧
      (run Endian.little 0 ((frame 8 0 6 0 80).take 53)).1 = some XDP_PASS) ∧
    (run Endian.big 0 ((frame 8 0 6 0 80).take 34)).1 = some XDP_PASS :=
  ⟨⟨by decide, by decide, by decide,
    C3_missing_transport_pass Endian.little 0 ((frame 8 0 6 0 80).take 53)
      (by decide) (by decide)⟩,
   C3_missing_transport_pass Endian.big 0 ((frame 8 0 6 0 80).take 34) (by decide) (by decide)⟩

/-- C4: on every buffer of at least 54 bytes whose IP protocol byte (offset
23) is not 6 (TCP), `xdp_port_punch` returns the default verdict Pass for
every value of the bytes at the port position; the only load of the run is the
protocol byte, so the port rule is not applied. -/
theorem C4_non_tcp_pass (host : Endian) (base : Nat) (pkt : List u8)
    (hlen : 54 ≤ pkt.length) (hproto : pkt[23]? ≠ some 6) :
    (run host base pkt).1 = some XDP_PASS ∧ (run host base pkt).2.reads = [base + 23] := by
  have h34 : ¬ pkt.length < 34 := by omega
  rw [run_eq]
  simp [verdict_of, offsets_read, hproto, h34]

/-- Witness of C4: a UDP frame (protocol 17) with port 80. -/
theorem C4_non_tcp_pass_witness :
    54 ≤ (frame 8 0 17 0 80).length ∧ (frame 8 0 17 0 80)[23]? ≠ some 6 ∧
      (run Endian.little 0 (frame 8 0 17 0 80)).1 = some XDP_PASS :=
  ⟨by decide, by decide,
   (C4_non_tcp_pass Endian.little 0 (frame 8 0 17 0 80) (by decide) (by decide)).1⟩

/-! ## Byte order -/

/-- C5: the value compared with 22 is the destination port in network order:
on either host byte order, `htons` of the 16-bit field loaded from bytes
36..37 is `256 * b36 + b37`.  Hence a TCP frame of at least 54 bytes with bytes
36..37 = 0x00 0x16 passes, and the same frame with the swapped encoding
0x16 0x00 (value 5632) is dropped. -/
theorem C5_network_byte_order (host : Endian) (base : Nat) (pkt : List u8)
    (hlen : 54 ≤ pkt.length) :
    (∃ x, (Machine.load_u16 host { base := base, pkt := pkt, reads := [] } (base + 36)).1 = some x
        ∧ htons host x = be16_at pkt 36) ∧
    (pkt[23]? = some 6 → pkt[36]? = some 0 → pkt[37]? = some 22 →
      (run host base pkt).1 = some XDP_PASS) ∧
    (pkt[23]? = some 6 → pkt[36]? = some 22 → pkt[37]? = some 0 →
      be16_at pkt 36 = 5632 ∧ (run host base pkt).1 = some XDP_DROP) := by
  have h37 : 36 + 1 < pkt.length := by omega
  refine ⟨?_, ?_, ?_⟩
  · have e := load_u16_in host { base := base, pkt := pkt, reads := [] } 36 h37
    refine ⟨_, congrArg Prod.fst e, ?_⟩
    rw [be16_at_eq pkt 36 h37]
    exact htons_load host _ _
  · intro hp h36 h37
    have hb : be16_at pkt 36 = 22 := by
      rw [be16_at_of_bytes pkt 36 0 22 h36 h37]
      rfl
    rw [run_eq]
    simp [verdict_of, hb]
  · intro hp h36 h37
    have hb : be16_at pkt 36 = 5632 := by
      rw [be16_at_of_bytes pkt 36 22 0 h36 h37]
      rfl
    rw [run_eq]
    simp [verdict_of, hlen, hp, hb]

/-- Witness of C5: port 22 in network order passes, its byte swap is dropped,
on a little-endian and on a big-endian host. -/
theorem C5_network_byte_order_witness :
    54 ≤ (frame 8 0 6 0 22).length ∧ 54 ≤ (frame 8 0 6 22 0).length ∧
    (run Endian.little 0 (frame 8 0 6 0 22)).1 = some XDP_PASS ∧
    (run Endian.big 0 (frame 8 0 6 22 0)).1 = some XDP_DROP :=
  ⟨by decide, by decide,
   (C5_network_byte_order Endian.little 0 (frame 8 0 6 0 22) (by decide)).2.1
     (by decide) (by decide) (by decide),
   ((C5_network_byte_order Endian.big 0 (frame 8 0 6 22 0) (by decide)).2.2
     (by decide) (by decide) (by decide)).2⟩

/-! ## The Link Header -/

/-- C6, counterexample: a 54-byte frame whose EtherType is 0x86DD (not IPv4),
with byte 23 = 6 and port bytes 0x00 0x50, is dropped: the bytes after the
Link Header are interpreted as IPv4/TCP although the EtherType is not IPv4. -/
theorem C6_ethertype_gate_counterexample :
    be16_at (frame 0x86 0xDD 6 0 80) 12 ≠ 0x0800 ∧
    (run Endian.little 0 (frame 0x86 0xDD 6 0 80)).1 = some XDP_DROP ∧
    ¬ (∀ (host : Endian) (base : Nat) (pkt : List u8),
        be16_at pkt 12 ≠ 0x0800 → (run host base pkt).1 = some XDP_PASS) := by
  refine ⟨by decide, by decide, ?_⟩
  intro h
  have h1 := h Endian.little 0 (frame 0x86 0xDD 6 0 80) (by decide)
  exact absurd h1 (by decide)

/-- C6, amended: the EtherType is never read.  For every buffer whose
EtherType (bytes 12..13) is not IPv4, `xdp_port_punch` loads neither byte 12
nor byte 13, returns the verdict it returns for the same buffer with any other
EtherType bytes, and still takes offsets 23 and 36..37 as IPv4/TCP fields: it
returns Drop when the length is at least 54, byte 23 is 6 and the big-endian
value of bytes 36..37 is not 22, and the default verdict Pass otherwise. -/
theorem C6_ethertype_not_read (host : Endian) (base : Nat) (pkt : List u8)
    (_het : be16_at pkt 12 ≠ 0x0800) :
    (base + 12 ∉ (run host base pkt).2.reads ∧ base + 13 ∉ (run host base pkt).2.reads) ∧
    (∀ a b : u8, (run host base ((pkt.set 12 a).set 13 b)).1 = (run host base pkt).1) ∧
    ((run host base pkt).1 = some XDP_DROP ↔
      54 ≤ pkt.length ∧ pkt[23]? = some 6 ∧ be16_at pkt 36 ≠ 22) ∧
    ((run host base pkt).1 = some XDP_PASS ↔
      ¬ (54 ≤ pkt.length ∧ pkt[23]? = some 6 ∧ be16_at pkt 36 ≠ 22)) := by
  refine ⟨⟨?_, ?_⟩, ?_, ?_, ?_⟩
  · rw [run_eq]
    simp only [List.mem_map, not_exists, not_and]
    intro off hmem heq
    have := (offsets_read_sub pkt off hmem).2.1
    omega
  · rw [run_eq]
    simp only [List.mem_map, not_exists, not_and]
    intro off hmem heq
    have := (offsets_read_sub pkt off hmem).2.1
    omega
  · intro a b
    rw [run_eq, run_eq]
    simp only [Option.some.injEq]
    rw [verdict_of_set _ 13 b (by decide) (by decide) (by decide),
      verdict_of_set _ 12 a (by decide) (by decide) (by decide)]
  · rw [run_eq]
    simp only [Option.some.injEq]
    exact verdict_of_drop_iff pkt
  · rw [run_eq]
    simp only [Option.some.injEq]
    exact verdict_of_pass_iff pkt

/-- Witness of the amended C6: the IPv6-typed frame with byte 23 = 6 and port
80 is dropped, and its EtherType bytes are not among the loaded addresses. -/
theorem C6_ethertype_not_read_witness :
    be16_at (frame 0x86 0xDD 6 0 80) 12 ≠ 0x0800 ∧
    (run Endian.big 100 (frame 0x86 0xDD 6 0 80)).1 = some XDP_DROP ∧
    100 + 12 ∉ (run Endian.big 100 (frame 0x86 0xDD 6 0 80)).2.reads :=
  ⟨by decide,
   (C6_ethertype_not_read Endian.big 100 (frame 0x86 0xDD 6 0 80) (by decide)).2.2.1.mpr
     ⟨by decide, by decide, by decide⟩,
   (C6_ethertype_not_read Endian.big 100 (frame 0x86 0xDD 6 0 80) (by decide)).1.1⟩

/-! ## Memory safety, totality, purity -/

/-- C7: no out-of-bounds read.  In every run, on a buffer of any length and
content, no load fails, every loaded address lies inside the packet, the
protocol byte (offset 23) is loaded only when the whole network header fits
(34 <= length) and the port bytes (offsets 36, 37) only when the whole
transport header fits (54 <= length). -/
theorem C7_no_out_of_bounds_read (host : Endian) (base : Nat) (pkt : List u8) :
    (run host base pkt).1 ≠ none ∧
    (∀ a ∈ (run host base pkt).2.reads, base ≤ a ∧ a < base + pkt.length) ∧
    (base + 23 ∈ (run host base pkt).2.reads → 34 ≤ pkt.length) ∧
    (base + 36 ∈ (run host base pkt).2.reads ∨ base + 37 ∈ (run host base pkt).2.reads →
      54 ≤ pkt.length) := by
  rw [run_eq]
  simp only [List.mem_map]
  refine ⟨by simp, ?_, ?_, ?_⟩
  · rintro a ⟨off, hmem, rfl⟩
    have := (offsets_read_sub pkt off hmem).1
    omega
  · rintro ⟨off, hmem, heq⟩
    exact (offsets_read_sub pkt off hmem).2.2.1 (by omega)
  · rintro (⟨off, hmem, heq⟩ | ⟨off, hmem, heq⟩)
    · exact (offsets_read_sub pkt off hmem).2.2.2 (Or.inl (by omega))
    · exact (offsets_read_sub pkt off hmem).2.2.2 (Or.inr (by omega))

/-- Witness of C7: a TCP frame cut to 40 bytes has its protocol byte loaded
and nothing else; the same frame cut to 30 bytes has nothing loaded. -/
theorem C7_no_out_of_bounds_read_witness :
    (run Endian.little 64 ((frame 8 0 6 0 80).take 40)).2.reads = [64 + 23] ∧
    (run Endian.little 64 ((frame 8 0 6 0 80).take 40)).1 ≠ none ∧
    (run Endian.little 64 ((frame 8 0 6 0 80).take 30)).2.reads = [] ∧
    (64 + 23 ∈ (run Endian.little 64 ((frame 8 0 6 0 80).take 40)).2.reads →
      34 ≤ ((frame 8 0 6 0 80).take 40).length) :=
  ⟨by decide,
   (C7_no_out_of_bounds_read Endian.little 64 ((frame 8 0 6 0 80).take 40)).1,
   by decide,
   (C7_no_out_of_bounds_read Endian.little 64 ((frame 8 0 6 0 80).take 40)).2.2.1⟩

/-- C8: `xdp_port_punch` is total: on every byte buffer of every length, the
empty one included, the run returns an action, and the action is Pass or
Drop, never Redirect, Transmit or Abort. -/
theorem C8_total_pass_or_drop (host : Endian) (base : Nat) (pkt : List u8) :
    (∃ v, (run host base pkt).1 = some v ∧ (v = XDP_PASS ∨ v = XDP_DROP)) ∧
    (run host base pkt).1 ≠ some XDP_REDIRECT ∧
    (run host base pkt).1 ≠ some XDP_TX ∧
    (run host base pkt).1 ≠ some XDP_ABORTED := by
  rw [run_eq]
  have h : verdict_of pkt = XDP_PASS ∨ verdict_of pkt = XDP_DROP := by
    unfold verdict_of
    split
    · exact Or.inr rfl
    · exact Or.inl rfl
  refine ⟨⟨verdict_of pkt, rfl, h⟩, ?_, ?_, ?_⟩ <;>
    rcases h with h | h <;> simp [h]

/-- C9: no hidden state.  A run leaves the packet and its placement as they
were, so a second run on the machine left by the first returns the same
action; and the action is a function of the buffer alone: it does not depend
on the host byte order, on where the buffer lies, or on the loads made
before. -/
theorem C9_idempotent (host : Endian) (m : Machine) :
    (xdp_port_punch host m.ctx m).2.pkt = m.pkt ∧
    (xdp_port_punch host m.ctx m).2.base = m.base ∧
    (xdp_port_punch host (xdp_port_punch host m.ctx m).2.ctx (xdp_port_punch host m.ctx m).2).1
      = (xdp_port_punch host m.ctx m).1 ∧
    (∀ (host2 : Endian) (m2 : Machine), m2.pkt = m.pkt →
      (xdp_port_punch host2 m2.ctx m2).1 = (xdp_port_punch host m.ctx m).1) := by
  refine ⟨?_, ?_, ?_, ?_⟩
  · rw [xdp_port_punch_eq]
  · rw [xdp_port_punch_eq]
  · rw [xdp_port_punch_eq host (xdp_port_punch host m.ctx m).2, xdp_port_punch_eq host m]
  · intro host2 m2 h
    rw [xdp_port_punch_eq, xdp_port_punch_eq, h]

/-- Witness of C9: the port-80 TCP frame is dropped on a first run and on a
second run over the machine the first one left. -/
theorem C9_idempotent_witness :
    (xdp_port_punch Endian.little (run Endian.little 0 (frame 8 0 6 0 80)).2.ctx
        (run Endian.little 0 (frame 8 0 6 0 80)).2).1 = some XDP_DROP ∧
    (run Endian.little 0 (frame 8 0 6 0 80)).1 = some XDP_DROP :=
  ⟨((C9_idempotent Endian.little { base := 0, pkt := frame 8 0 6 0 80, reads := [] }).2.2.1).trans
     (by decide),
   by decide⟩

/-- C10: the fail-open policy, exactly: on every buffer `xdp_port_punch`
returns Drop if and only if the length is at least 54, byte 23 is 6 (TCP) and
the big-endian 16-bit value of bytes 36..37 is not 22; in every other case it
returns Pass. -/
theorem C10_drop_iff (host : Endian) (base : Nat) (pkt : List u8) :
    ((run host base pkt).1 = some XDP_DROP ↔
      54 ≤ pkt.length ∧ pkt[23]? = some 6 ∧ be16_at pkt 36 ≠ 22) ∧
    ((run host base pkt).1 = some XDP_PASS ↔
      ¬ (54 ≤ pkt.length ∧ pkt[23]? = some 6 ∧ be16_at pkt 36 ≠ 22)) := by
  rw [run_eq]
  simp only [Option.some.injEq]
  exact ⟨verdict_of_drop_iff pkt, verdict_of_pass_iff pkt⟩

/-! ## What the verdict depends on -/

theorem be16_at_congr (p q : List u8) (off off2 : Nat)
    (h0 : p[off]? = q[off2]?) (h1 : p[off + 1]? = q[off2 + 1]?) :
    be16_at p off = be16_at q off2 := by
  simp only [be16_at, List.getD_eq_getElem?_getD, h0, h1]

theorem verdict_of_congr (p q : List u8) (hlen : p.length = q.length)
    (h23 : p[23]? = q[23]?) (h36 : p[36]? = q[36]?) (h37 : p[37]? = q[37]?) :
    verdict_of p = verdict_of q := by
  have hb : be16_at p 36 = be16_at q 36 := be16_at_congr p q 36 36 h36 h37
  simp only [verdict_of, hlen, h23, hb]

theorem verdict_of_append (p ext : List u8) (hlen : 54 ≤ p.length) :
    verdict_of (p ++ ext) = verdict_of p := by
  have h23 : (p ++ ext)[23]? = p[23]? := List.getElem?_append_left (by omega)
  have h36 : (p ++ ext)[36]? = p[36]? := List.getElem?_append_left (by omega)
  have h37 : (p ++ ext)[36 + 1]? = p[36 + 1]? := List.getElem?_append_left (by omega)
  have hb : be16_at (p ++ ext) 36 = be16_at p 36 := be16_at_congr _ _ 36 36 h36 h37
  have hl : 54 ≤ (p ++ ext).length := by
    rw [List.length_append]
    omega
  simp only [verdict_of, h23, hb, hl, hlen]

/-- C11: the verdict of `xdp_port_punch` depends only on the buffer length and
the bytes at offsets 23, 36 and 37: two buffers of equal length that agree on
those three bytes get the same verdict.  In particular the verdict ignores the
IPv4 version/IHL byte (offset 14), so the port is taken at the fixed offset 36
also when the IHL announces options, and it ignores every byte from offset 54
on. -/
theorem C11_depends_on_three_bytes (host host2 : Endian) (base base2 : Nat) (p q : List u8)
    (hlen : p.length = q.length)
    (h23 : p[23]? = q[23]?) (h36 : p[36]? = q[36]?) (h37 : p[37]? = q[37]?) :
    (run host base p).1 = (run host2 base2 q).1 ∧
    (∀ v : u8, (run host base (p.set 14 v)).1 = (run host base p).1) ∧
    (∀ (off : Nat) (v : u8), 54 ≤ off → (run host base (p.set off v)).1 = (run host base p).1) := by
  refine ⟨?_, ?_, ?_⟩
  · rw [run_eq, run_eq, verdict_of_congr p q hlen h23 h36 h37]
  · intro v
    rw [run_eq, run_eq, verdict_of_set p 14 v (by decide) (by decide) (by decide)]
  · intro off v hoff
    rw [run_eq, run_eq, verdict_of_set p off v (by omega) (by omega) (by omega)]

/-- Witness of C11: a frame with EtherType 0x86DD, IHL 6 and a changed payload
byte agrees with the plain port-80 TCP frame on length and on bytes 23, 36, 37,
and gets the same verdict, Drop. -/
theorem C11_depends_on_three_bytes_witness :
    (frame 8 0 6 0 80).length = ((frame 0x86 0xDD 6 0 80).set 14 0x46).length ∧
    (frame 8 0 6 0 80)[23]? = ((frame 0x86 0xDD 6 0 80).set 14 0x46)[23]? ∧
    (run Endian.little 0 ((frame 0x86 0xDD 6 0 80).set 14 0x46)).1 = some XDP_DROP :=
  ⟨by decide, by decide,
   ((C11_depends_on_three_bytes Endian.little Endian.little 0 0 (frame 8 0 6 0 80)
      ((frame 0x86 0xDD 6 0 80).set 14 0x46)
      (by decide) (by decide) (by decide) (by decide)).1).symm.trans (by decide)⟩

/-- C12: truncation only fails open.  If `xdp_port_punch` passes a buffer then
it passes every prefix of it; and on a buffer of at least 54 bytes, appending
bytes or changing bytes after offset 53 does not change the verdict. -/
theorem C12_truncation_fails_open (host : Endian) (base : Nat) :
    (∀ p rest : List u8, (run host base (p ++ rest)).1 = some XDP_PASS →
      (run host base p).1 = some XDP_PASS) ∧
    (∀ b : List u8, 54 ≤ b.length →
      (∀ ext : List u8, (run host base (b ++ ext)).1 = (run host base b).1) ∧
      (∀ (off : Nat) (v : u8), 53 < off →
        (run host base (b.set off v)).1 = (run host base b).1)) := by
  constructor
  · intro p rest hpass
    rw [run_eq] at hpass
    rw [run_eq]
    by_cases hlen : 54 ≤ p.length
    · rw [verdict_of_append p rest hlen] at hpass
      exact hpass
    · simp only [Option.some.injEq]
      exact (verdict_of_pass_iff p).mpr (fun hc => hlen hc.1)
  · intro b hlen
    constructor
    · intro ext
      rw [run_eq, run_eq, verdict_of_append b ext hlen]
    · intro off v hoff
      rw [run_eq, run_eq, verdict_of_set b off v (by omega) (by omega) (by omega)]

/-- Witness of C12: the port-22 frame with three bytes appended passes, and so
does the frame itself; the port-80 frame keeps its verdict when bytes are
appended. -/
theorem C12_truncation_fails_open_witness :
    (run Endian.little 0 (frame 8 0 6 0 22 ++ [1, 2, 3])).1 = some XDP_PASS ∧
    (run Endian.little 0 (frame 8 0 6 0 22)).1 = some XDP_PASS ∧
    54 ≤ (frame 8 0 6 0 80).length ∧
    (run Endian.little 0 (frame 8 0 6 0 80 ++ [1, 2, 3])).1 =
      (run Endian.little 0 (frame 8 0 6 0 80)).1 :=
  ⟨by decide,
   (C12_truncation_fails_open Endian.little 0).1 (frame 8 0 6 0 22) [1, 2, 3] (by decide),
   by decide,
   ((C12_truncation_fails_open Endian.little 0).2 (frame 8 0 6 0 80) (by decide)).1 [1, 2, 3]⟩

/-! ## Equivalence with the layer-by-layer walk -/

theorem reference_walk_eq (pkt : List u8) : reference_walk pkt = verdict_of pkt := by
  simp only [reference_walk, try_read_header, sizeof_ethhdr, sizeof_iphdr, sizeof_tcphdr,
    offsetof_iphdr_protocol, offsetof_tcphdr_dest, Nat.zero_add, List.drop_zero]
  by_cases h14 : 14 ≤ pkt.length
  · by_cases h34 : 14 + 20 ≤ pkt.length
    · have g9 : (List.take 20 (List.drop 14 pkt))[9]? = pkt[23]? := by
        rw [List.getElem?_take_of_lt (by decide), List.getElem?_drop]
      by_cases hp : pkt[23]? = some 6
      · by_cases h54 : 14 + 20 + 20 ≤ pkt.length
        · have g2 : (List.take 20 (List.drop (14 + 20) pkt))[2]? = pkt[36]? := by
            rw [List.getElem?_take_of_lt (by decide), List.getElem?_drop]
          have g3 : (List.take 20 (List.drop (14 + 20) pkt))[2 + 1]? = pkt[36 + 1]? := by
            rw [List.getElem?_take_of_lt (by decide), List.getElem?_drop]
          have hb : be16_at (List.take 20 (List.drop (14 + 20) pkt)) 2 = be16_at pkt 36 :=
            be16_at_congr _ _ 2 36 g2 g3
          have h54b : 54 ≤ pkt.length := by omega
          simp only [if_pos h14, if_pos h34, if_pos h54, g9, hp, verdict_of, h54b, true_and,
            ne_eq, ite_not, if_true, hb]
        · have h54b : ¬ 54 ≤ pkt.length := by omega
          simp only [if_pos h14, if_pos h34, if_neg h54, g9, hp, verdict_of, h54b, false_and,
            if_true, if_false]
      · simp only [if_pos h14, if_pos h34, g9, hp, verdict_of, false_and, and_false, if_false]
    · have h54b : ¬ 54 ≤ pkt.length := by omega
      simp only [if_pos h14, if_neg h34, verdict_of, h54b, false_and, if_false]
  · have h54b : ¬ 54 ≤ pkt.length := by omega
    simp only [if_neg h14, verdict_of, h54b, false_and, if_false]

/-- C13: the code advances to offset 14 without a bounds check of its own for
the Link Header, and this is equivalent to the layer-by-layer walk: on every
buffer `xdp_port_punch` returns the verdict of the reference walk, which
advances its cursor only when `offset + h <= length` at each layer (14, then
34, then 54) and returns Pass at the first failed check. -/
theorem C13_refines_reference_walk (host : Endian) (base : Nat) (pkt : List u8) :
    (run host base pkt).1 = some (reference_walk pkt) := by
  rw [run_eq, reference_walk_eq]

/-! ## The pass-all filter -/

/-- C14: `pass_filter` returns Pass (`XDP_PASS`) for every input context, and
it reads nothing of the packet: the machine, its load log included, is left as
it was. -/
theorem C14_pass_filter_pass (ctx : xdp_md) (m : Machine) :
    (pass_filter ctx m).1 = some XDP_PASS ∧ (pass_filter ctx m).2 = m ∧
    (pass_filter ctx m).2.reads = m.reads := by
  exact ⟨rfl, rfl, rfl⟩

end XdpSamples
